import Mathlib

/-!
# Verification of the Kalshi dashboard analytics engine

Shallow embedding of the pure analytics functions of the repository
(`src/api/stats.js` and the analytics half of `src/components/Scanner.jsx`)
over exact rational arithmetic (JS numbers modelled as `ℚ`; `Math.sqrt`
modelled as `Real.sqrt`), together with proofs of the specified properties.
-/

namespace KalshiStats

/-- JS `Math.round(x * 10) / 10` (round to 1 decimal place).
`Math.round x = ⌊x + 0.5⌋` for finite `x`. -/
def round1 (x : ℚ) : ℚ := (⌊x * 10 + 1/2⌋ : ℚ) / 10

/-- JS `Math.round(x * 100) / 100` (round to 2 decimal places). -/
def round2 (x : ℚ) : ℚ := (⌊x * 100 + 1/2⌋ : ℚ) / 100

/-- The fields of an upstream trade record that the analytics read.
Either price field may be absent (`undefined`/`null` in JS). -/
structure Trade where
  yes_price : Option ℚ
  price : Option ℚ
deriving DecidableEq, Repr

/-- `t.yes_price ?? t.price ?? 0` — the price a trade contributes. -/
def tradePrice (t : Trade) : ℚ := t.yes_price.getD (t.price.getD 0)

/-- Result record of `computeMomentum`. -/
structure Momentum where
  direction : String
  magnitude : ℚ
  recentAvg : ℚ
  olderAvg : ℚ
  tradeCount : ℕ
  velocity : ℚ
deriving DecidableEq, Repr

/-- `sumX` accumulated by the regression loop in `computeMomentum`:
`Σ_{i<n} i`. -/
def momSumX (n : ℕ) : ℚ := ((List.range n).map (fun i => (i : ℚ))).sum

/-- `sumX2` accumulated by the regression loop in `computeMomentum`:
`Σ_{i<n} i*i`. -/
def momSumX2 (n : ℕ) : ℚ := ((List.range n).map (fun i => (i : ℚ) * i)).sum

/-- The denominator `n * sumX2 - sumX * sumX` of the regression slope in
`computeMomentum`. -/
def momDenom (n : ℕ) : ℚ := n * momSumX2 n - momSumX n * momSumX n

/-- `computeMomentum` from `src/api/stats.js`: direction/magnitude from the
two halves of the price series, velocity from an OLS regression of price
against index. -/
def computeMomentum (trades : List Trade) : Option Momentum :=
  if trades.length < 4 then none
  else
    let prices := trades.map tradePrice
    let half := prices.length / 2
    let recentHalf := prices.take half
    let olderHalf := prices.drop half
    let recentAvg := recentHalf.sum / recentHalf.length
    let olderAvg := olderHalf.sum / olderHalf.length
    let magnitude := |recentAvg - olderAvg|
    let n := prices.length
    let sumY := prices.sum
    let sumXY := (((List.range n).zip prices).map (fun p => (p.1 : ℚ) * p.2)).sum
    let slope := ((n : ℚ) * sumXY - momSumX n * sumY) / momDenom n
    let direction :=
      if 1 < recentAvg - olderAvg then "UP"
      else if 1 < olderAvg - recentAvg then "DOWN"
      else "FLAT"
    some
      { direction := direction
        magnitude := round1 magnitude
        recentAvg := round1 recentAvg
        olderAvg := round1 olderAvg
        tradeCount := trades.length
        velocity := round2 slope }

/-- The fields of an upstream market snapshot that the analytics read.
`event_ticker` is a string, with `""` standing for a JS falsy value
(absent or empty); `last_price` may be absent. -/
structure Market where
  event_ticker : String
  title : String
  event_title : String
  last_price : Option ℚ
deriving DecidableEq, Repr

/-- Result record of `detectArbitrage`. -/
structure ArbResult where
  totalImpliedPct : ℚ
  overround : ℚ
  marketCount : ℕ
  isMispriced : Bool
deriving DecidableEq, Repr

/-- The filter `m.last_price != null && m.last_price > 0` used by
`detectArbitrage`. -/
def hasPositivePrice (m : Market) : Bool :=
  match m.last_price with
  | some p => decide (0 < p)
  | none => false

/-- `detectArbitrage` from `src/api/stats.js`: sums the last prices of an
event's positively-priced markets and flags deviation from 100. -/
def detectArbitrage (eventMarkets : List Market) : Option ArbResult :=
  if eventMarkets.length < 2 then none
  else
    let marketsWithPrice := eventMarkets.filter hasPositivePrice
    if marketsWithPrice.length < 2 then none
    else
      let totalImpliedPct := (marketsWithPrice.map (fun m => m.last_price.getD 0)).sum
      let overround := totalImpliedPct - 100
      some
        { totalImpliedPct := round1 totalImpliedPct
          overround := round1 overround
          marketCount := marketsWithPrice.length
          isMispriced := decide (15 < |overround|) }

/-- An order book side is an ordered list of `[price, quantity]` levels. -/
structure OrderBook where
  yes : List (ℚ × ℚ)
  no : List (ℚ × ℚ)
deriving DecidableEq, Repr

/-- Result record of `computeSpread`. -/
structure SpreadResult where
  spread : Option ℚ
  spreadPct : Option ℚ
  bestBid : Option ℚ
  bestAsk : Option ℚ
  midpoint : Option ℚ
  depth : ℕ
deriving DecidableEq, Repr

/-- `computeSpread` from `src/api/stats.js`: best bid is the top of the
`yes` side, best ask is `100 -` the top of the `no` side. -/
def computeSpread (orderbook : Option OrderBook) : Option SpreadResult :=
  match orderbook with
  | none => none
  | some ob =>
    let yesBids := ob.yes
    let noBids := ob.no
    let bestYesBid : Option ℚ := match yesBids with | [] => none | l :: _ => some l.1
    let bestNoBid : Option ℚ := match noBids with | [] => none | l :: _ => some l.1
    let bestAsk := bestNoBid.map (fun p => 100 - p)
    let bestBid := bestYesBid
    match bestBid, bestAsk with
    | some bid, some ask =>
      let spread := ask - bid
      let midpoint := (bid + ask) / 2
      let spreadPct := if 0 < midpoint then spread / midpoint * 100 else 0
      some
        { spread := some spread
          spreadPct := some spreadPct
          bestBid := some bid
          bestAsk := some ask
          midpoint := some midpoint
          depth := yesBids.length + noBids.length }
    | _, _ =>
      some
        { spread := none
          spreadPct := none
          bestBid := bestBid
          bestAsk := bestAsk
          midpoint := none
          depth := yesBids.length + noBids.length }

/-- Result record of `computeDivergence`. -/
structure DivResult where
  divergence : ℚ
  direction : String
  targetDelta : ℚ
  candidateDelta : ℚ
deriving DecidableEq, Repr

/-- `computeDivergence` from `src/api/stats.js`: compares recent-vs-older
price deltas of two trade series. `slice(-3)` on a list of length `≥ 3`
is `drop (length - 3)`. -/
def computeDivergence (targetTrades candidateTrades : List Trade) : Option DivResult :=
  if targetTrades.length = 0 ∨ candidateTrades.length = 0 then none
  else if targetTrades.length < 3 ∨ candidateTrades.length < 3 then none
  else
    let tPrices := targetTrades.map tradePrice
    let cPrices := candidateTrades.map tradePrice
    let tRecent := (tPrices.take 3).sum / 3
    let tOlder := (tPrices.drop (tPrices.length - 3)).sum / 3
    let cRecent := (cPrices.take 3).sum / 3
    let cOlder := (cPrices.drop (cPrices.length - 3)).sum / 3
    let tDelta := tRecent - tOlder
    let cDelta := cRecent - cOlder
    let divergence := |tDelta - cDelta|
    let direction :=
      if 1 < tDelta ∧ cDelta < -1 then "TARGET UP / MATCH DOWN"
      else if tDelta < -1 ∧ 1 < cDelta then "TARGET DOWN / MATCH UP"
      else if 1 < tDelta ∧ 1 < cDelta ∧ 3 < |tDelta - cDelta| then "BOTH UP (DIVERGING)"
      else if tDelta < -1 ∧ cDelta < -1 ∧ 3 < |tDelta - cDelta| then "BOTH DOWN (DIVERGING)"
      else "NEUTRAL"
    some
      { divergence := round1 divergence
        direction := direction
        targetDelta := round1 tDelta
        candidateDelta := round1 cDelta }

/-- `pearsonCorrelation` from `src/components/Scanner.jsx`. JS numbers are
modelled as exact rationals, `Math.sqrt` as `Real.sqrt`, so the result
lives in `ℝ`. -/
noncomputable def pearsonCorrelation (seriesA seriesB : List ℚ) : Option ℝ :=
  let n := min seriesA.length seriesB.length
  if n < 10 then none
  else
    let a := seriesA.take n
    let b := seriesB.take n
    let meanA := a.sum / (n : ℚ)
    let meanB := b.sum / (n : ℚ)
    let num := ((a.zip b).map (fun p => (p.1 - meanA) * (p.2 - meanB))).sum
    let denomA := (a.map (fun v => (v - meanA) * (v - meanA))).sum
    let denomB := (b.map (fun v => (v - meanB) * (v - meanB))).sum
    let denom := Real.sqrt ((denomA : ℝ) * (denomB : ℝ))
    if denom = 0 then some 0 else some ((num : ℝ) / denom)

/-- `normalizeSeries` from `src/components/Scanner.jsx`: rescales so
min → 0 and max → 100, with a constant series mapping to all 50s. -/
def normalizeSeries (prices : List ℚ) : List ℚ :=
  match prices with
  | [] => []
  | p :: ps =>
    let mn := ps.foldl min p
    let mx := ps.foldl max p
    let range := mx - mn
    if range = 0 then (p :: ps).map (fun _ => (50 : ℚ))
    else (p :: ps).map (fun q => (q - mn) / range * 100)

/-- The `STOP_WORDS` set of `src/components/Scanner.jsx`. -/
def STOP_WORDS : List String :=
  ["the", "a", "an", "is", "are", "was", "were", "be", "been", "being",
   "will", "would", "could", "should", "may", "might", "shall", "can",
   "do", "does", "did", "have", "has", "had", "having",
   "in", "on", "at", "to", "for", "of", "with", "by", "from", "as",
   "and", "or", "not", "no", "yes", "but", "if", "than", "that", "this",
   "it", "its", "what", "which", "who", "whom", "how", "when", "where",
   "before", "after", "above", "below", "between", "over", "under",
   "more", "most", "other", "some", "any", "all", "each", "every",
   "about", "up", "out", "into", "through", "during", "against",
   "next", "new", "first", "last", "get", "become", "per"]

/-- `extractKeywords` from `src/components/Scanner.jsx`: lowercase,
replace every character outside `[a-z0-9\s]` by a space, split on
whitespace runs, keep non-stop-words of length `> 2`. (Splitting on every
whitespace character yields extra empty tokens relative to `/\s+/`, all of
which the length filter removes.) -/
def extractKeywords (text : String) : List String :=
  let cleaned := text.toLower.map
    (fun c => if ('a' ≤ c ∧ c ≤ 'z') ∨ c.isDigit ∨ c.isWhitespace then c else ' ')
  (cleaned.split (fun c => c.isWhitespace)).filter
    (fun w => decide (2 < w.length) && !(STOP_WORDS.contains w))

/-- `keywordSimilarity` from `src/components/Scanner.jsx`: Jaccard
similarity of the two token sets (`List.dedup` plays the role of `Set`). -/
def keywordSimilarity (kwA kwB : List String) : ℚ :=
  if kwA.length = 0 ∨ kwB.length = 0 then 0
  else
    let setA := kwA.dedup
    let setB := kwB.dedup
    let inter := (setA.filter (fun w => setB.contains w)).length
    let union := (kwA ++ kwB).dedup.length
    if union = 0 then 0 else (inter : ℚ) / (union : ℚ)

/-- JS `x.toFixed(0)` for a finite number: round to the nearest integer,
ties away from zero. -/
def jsToFixed0 (q : ℚ) : ℤ := if 0 ≤ q then ⌊q + 1/2⌋ else -⌊-q + 1/2⌋

/-- Result record of `computeRelatedness`. -/
structure RelatednessResult where
  score : ℚ
  reason : String
deriving DecidableEq, Repr

/-- `computeRelatedness` from `src/components/Scanner.jsx`: additive score
from same-event bonus, keyword overlap and price proximity; the reason is
set by the first signal that fires and never overwritten. -/
def computeRelatedness (target candidate : Market) : RelatednessResult :=
  let score0 : ℚ := 0
  let reason0 : String := ""
  let sameEvent := target.event_ticker ≠ "" ∧ target.event_ticker = candidate.event_ticker
  let score1 := if sameEvent then score0 + 0.8 else score0
  let reason1 := if sameEvent then "SAME EVENT" else reason0
  let kwTarget := extractKeywords (target.title ++ " " ++ target.event_title)
  let kwCand := extractKeywords (candidate.title ++ " " ++ candidate.event_title)
  let kwSim := keywordSimilarity kwTarget kwCand
  let score2 := if 0 < kwSim then score1 + kwSim * 0.6 else score1
  let reason2 :=
    if 0 < kwSim then
      if reason1 = "" then "TOPIC " ++ toString (jsToFixed0 (kwSim * 100)) ++ "%" else reason1
    else reason1
  let score3 :=
    match target.last_price, candidate.last_price with
    | some pTarget, some pCand =>
      let priceDist := |pTarget - pCand| / 100
      score2 + (1 - priceDist) * 0.1
    | _, _ => score2
  { score := score3, reason := reason2 }

/-- A trade record carrying the given `yes_price`. -/
def tradeOfPrice (q : ℚ) : Trade := { yes_price := some q, price := none }

/-- The trade series of the spec's momentum example, newest-first. -/
def exampleTrades : List Trade := [70, 68, 65, 60, 55, 50].map tradeOfPrice

/-- The same series with the newest trade stripped of both price fields. -/
def exampleTradesUnpriced : List Trade :=
  { yes_price := none, price := none } :: [68, 65, 60, 55, 50].map tradeOfPrice

/-- Evaluation lemma for `round1`: `round1 x = v` once the floor is
bracketed by an explicit integer. -/
lemma round1_eval (x : ℚ) (z : ℤ) (v : ℚ) (h1 : (z : ℚ) ≤ x * 10 + 1/2)
    (h2 : x * 10 + 1/2 < z + 1) (h3 : (z : ℚ)/10 = v) : round1 x = v := by
  rw [round1, Int.floor_eq_iff.mpr ⟨h1, h2⟩, h3]

/-- Evaluation lemma for `round2`. -/
lemma round2_eval (x : ℚ) (z : ℤ) (v : ℚ) (h1 : (z : ℚ) ≤ x * 100 + 1/2)
    (h2 : x * 100 + 1/2 < z + 1) (h3 : (z : ℚ)/100 = v) : round2 x = v := by
  rw [round2, Int.floor_eq_iff.mpr ⟨h1, h2⟩, h3]

end KalshiStats

namespace KalshiStats

/-- C1 (counterexample): on the spec's example trades `[70,68,65,60,55,50]`
the code's halves are `[70,68,65]` (mean 203/3) and `[60,55,50]` (mean 55),
so the returned magnitude is 12.7 — not ≈ 9.3 as claimed (it is off
by 3.4). -/
theorem momentum_example_magnitude_not_nine_three :
    (computeMomentum exampleTrades).map Momentum.magnitude = some (127/10) ∧
    ¬ ((127 : ℚ)/10 = 93/10) ∧ 3 < |(127 : ℚ)/10 - 93/10| := by
  refine ⟨?_, by norm_num, by rw [abs_of_nonneg (by norm_num)]; norm_num⟩
  norm_num [computeMomentum, exampleTrades, tradeOfPrice, tradePrice,
    momSumX, momSumX2, momDenom, List.range_succ]
  rw [abs_of_nonneg (by norm_num : (0:ℚ) ≤ 38/3)]
  exact round1_eval _ 127 _ (by norm_num) (by norm_num) (by norm_num)

/-- C1 (amended): on trades with prices `[70,68,65,60,55,50]` (newest-first),
`computeMomentum` splits off the recent half of `floor(n/2)` trades from the
older remainder and returns direction "UP", magnitude 12.7 (the absolute
difference of the halves' means 203/3 and 55), recentAvg 67.7, olderAvg 55
and velocity −4.11. -/
theorem momentum_example_eval :
    computeMomentum exampleTrades =
      some { direction := "UP", magnitude := 127/10, recentAvg := 677/10,
             olderAvg := 55, tradeCount := 6, velocity := -411/100 } := by
  norm_num [computeMomentum, exampleTrades, tradeOfPrice, tradePrice,
    momSumX, momSumX2, momDenom, List.range_succ]
  refine ⟨?_, ?_, ?_, ?_⟩
  · rw [abs_of_nonneg (by norm_num : (0:ℚ) ≤ 38/3)]
    exact round1_eval _ 127 _ (by norm_num) (by norm_num) (by norm_num)
  · exact round1_eval _ 677 _ (by norm_num) (by norm_num) (by norm_num)
  · exact round1_eval _ 550 _ (by norm_num) (by norm_num) (by norm_num)
  · exact round2_eval _ (-411) _ (by norm_num) (by norm_num) (by norm_num)

/-- C8: on the order book `{yes: [[45,100]], no: [[40,50]]}`, `computeSpread`
returns bestBid 45, bestAsk 60, spread 15, midpoint 52.5 and
spreadPct 200/7 ≈ 28.57; and in general the best ask is `100 -` the price
at the top of the `no` side. -/
theorem spread_example_and_bestAsk :
    (computeSpread (some { yes := [(45, 100)], no := [(40, 50)] }) =
      some { spread := some 15, spreadPct := some (200/7), bestBid := some 45,
             bestAsk := some 60, midpoint := some (105/2), depth := 2 }) ∧
    |(200 : ℚ)/7 - 2857/100| < 1/100 ∧
    ∀ (ob : OrderBook) (p q : ℚ) (rest : List (ℚ × ℚ)), ob.no = (p, q) :: rest →
      (computeSpread (some ob)).map SpreadResult.bestAsk = some (some (100 - p)) := by
  refine ⟨?_, by rw [abs_of_nonneg (by norm_num)]; norm_num, ?_⟩
  · norm_num [computeSpread]
  · intro ob p q rest h
    obtain ⟨yes, no⟩ := ob
    simp only at h
    subst h
    rcases yes with _ | ⟨⟨py, qy⟩, ys⟩ <;> simp [computeSpread]

/-- Witness for C8: the general best-ask clause applied to the order book
`{yes: [], no: [[30,1]]}`. -/
theorem spread_bestAsk_witness :
    (computeSpread (some { yes := [], no := [(30, 1)] })).map SpreadResult.bestAsk =
      some (some 70) := by
  have h := spread_example_and_bestAsk.2.2 { yes := [], no := [(30, 1)] } 30 1 [] rfl
  simpa [show (100:ℚ) - 30 = 70 by norm_num] using h

/-- C10: a trade whose `yes_price` and `price` are both absent is mapped to
price 0 (not skipped), and replacing the newest trade of the example series
by such a trade flips the momentum direction from "UP" to "DOWN" and changes
magnitude, velocity, and the divergence output. -/
theorem unpriced_trade_not_skipped :
    tradePrice { yes_price := none, price := none } = 0 ∧
    exampleTradesUnpriced.map tradePrice = [0, 68, 65, 60, 55, 50] ∧
    computeMomentum exampleTradesUnpriced =
      some { direction := "DOWN", magnitude := 107/10, recentAvg := 443/10,
             olderAvg := 55, tradeCount := 6, velocity := 589/100 } ∧
    (computeMomentum exampleTrades).map Momentum.direction = some "UP" ∧
    (computeMomentum exampleTrades).map Momentum.magnitude = some (127/10) ∧
    (computeMomentum exampleTrades).map Momentum.velocity = some (-411/100) ∧
    computeDivergence exampleTradesUnpriced exampleTrades =
      some { divergence := 233/10, direction := "TARGET DOWN / MATCH UP",
             targetDelta := -107/10, candidateDelta := 127/10 } ∧
    computeDivergence exampleTrades exampleTrades =
      some { divergence := 0, direction := "NEUTRAL",
             targetDelta := 127/10, candidateDelta := 127/10 } := by
  have hmomA : computeMomentum exampleTrades =
      some { direction := "UP", magnitude := 127/10, recentAvg := 677/10,
             olderAvg := 55, tradeCount := 6, velocity := -411/100 } := by
    norm_num [computeMomentum, exampleTrades, tradeOfPrice, tradePrice,
      momSumX, momSumX2, momDenom, List.range_succ]
    refine ⟨?_, ?_, ?_, ?_⟩
    · rw [abs_of_nonneg (by norm_num : (0:ℚ) ≤ 38/3)]
      exact round1_eval _ 127 _ (by norm_num) (by norm_num) (by norm_num)
    · exact round1_eval _ 677 _ (by norm_num) (by norm_num) (by norm_num)
    · exact round1_eval _ 550 _ (by norm_num) (by norm_num) (by norm_num)
    · exact round2_eval _ (-411) _ (by norm_num) (by norm_num) (by norm_num)
  refine ⟨rfl, by norm_num [exampleTradesUnpriced, tradeOfPrice, tradePrice], ?_,
    by rw [hmomA]; rfl, by rw [hmomA]; rfl, by rw [hmomA]; rfl, ?_, ?_⟩
  · norm_num [computeMomentum, exampleTradesUnpriced, tradeOfPrice, tradePrice,
      momSumX, momSumX2, momDenom, List.range_succ]
    refine ⟨?_, ?_, ?_, ?_⟩
    · rw [abs_of_nonneg (by norm_num : (0:ℚ) ≤ 32/3)]
      exact round1_eval _ 107 _ (by norm_num) (by norm_num) (by norm_num)
    · exact round1_eval _ 443 _ (by norm_num) (by norm_num) (by norm_num)
    · exact round1_eval _ 550 _ (by norm_num) (by norm_num) (by norm_num)
    · exact round2_eval _ 589 _ (by norm_num) (by norm_num) (by norm_num)
  · norm_num [computeDivergence, exampleTradesUnpriced, exampleTrades, tradeOfPrice, tradePrice]
    refine ⟨?_, ?_, ?_⟩
    · rw [abs_of_nonneg (by norm_num : (0:ℚ) ≤ 70/3)]
      exact round1_eval _ 233 _ (by norm_num) (by norm_num) (by norm_num)
    · exact round1_eval _ (-107) _ (by norm_num) (by norm_num) (by norm_num)
    · exact round1_eval _ 127 _ (by norm_num) (by norm_num) (by norm_num)
  · norm_num [computeDivergence, exampleTrades, tradeOfPrice, tradePrice]
    refine ⟨?_, ?_⟩
    · exact round1_eval _ 0 _ (by norm_num) (by norm_num) (by norm_num)
    · exact round1_eval _ 127 _ (by norm_num) (by norm_num) (by norm_num)

/-- A market of the event "EVT" with the given last price. -/
def marketWithPrice (p : ℚ) : Market :=
  { event_ticker := "EVT", title := "", event_title := "", last_price := some p }

/-- C2: `detectArbitrage` returns `none` when fewer than 2 markets have a
known positive `last_price`; otherwise it returns the sum of those prices
and the overround `sum - 100` (each rounded to 1 decimal), the priced-market
count, and `isMispriced` exactly when `|sum - 100| > 15`. Prices summing to
100 give overround 0 / not mispriced; 120 gives overround 20 / mispriced. -/
theorem detectArbitrage_spec :
    (∀ ms : List Market, (ms.filter hasPositivePrice).length < 2 →
      detectArbitrage ms = none) ∧
    (∀ ms : List Market, 2 ≤ (ms.filter hasPositivePrice).length →
      detectArbitrage ms =
        some { totalImpliedPct :=
                 round1 (((ms.filter hasPositivePrice).map (fun m => m.last_price.getD 0)).sum)
               overround :=
                 round1 (((ms.filter hasPositivePrice).map (fun m => m.last_price.getD 0)).sum - 100)
               marketCount := (ms.filter hasPositivePrice).length
               isMispriced :=
                 decide (15 < |((ms.filter hasPositivePrice).map (fun m => m.last_price.getD 0)).sum - 100|) }) ∧
    detectArbitrage [marketWithPrice 60, marketWithPrice 40] =
      some { totalImpliedPct := 100, overround := 0, marketCount := 2, isMispriced := false } ∧
    detectArbitrage [marketWithPrice 60, marketWithPrice 60] =
      some { totalImpliedPct := 120, overround := 20, marketCount := 2, isMispriced := true } := by
  have h1 : ∀ ms : List Market, (ms.filter hasPositivePrice).length < 2 →
      detectArbitrage ms = none := by
    intro ms h
    by_cases h2 : ms.length < 2
    · simp [detectArbitrage, h2]
    · simp [detectArbitrage, h2, h]
  have h2 : ∀ ms : List Market, 2 ≤ (ms.filter hasPositivePrice).length →
      detectArbitrage ms =
        some { totalImpliedPct :=
                 round1 (((ms.filter hasPositivePrice).map (fun m => m.last_price.getD 0)).sum)
               overround :=
                 round1 (((ms.filter hasPositivePrice).map (fun m => m.last_price.getD 0)).sum - 100)
               marketCount := (ms.filter hasPositivePrice).length
               isMispriced :=
                 decide (15 < |((ms.filter hasPositivePrice).map (fun m => m.last_price.getD 0)).sum - 100|) } := by
    intro ms h
    have hlen : ¬ ms.length < 2 :=
      not_lt.mpr (le_trans h (List.length_filter_le _ _))
    have hflt : ¬ (ms.filter hasPositivePrice).length < 2 := not_lt.mpr h
    simp only [detectArbitrage]
    rw [if_neg hlen, if_neg hflt]
  refine ⟨h1, h2, ?_, ?_⟩
  · rw [h2 _ (by norm_num [hasPositivePrice, marketWithPrice])]
    norm_num [marketWithPrice, hasPositivePrice]
    exact ⟨round1_eval _ 1000 _ (by norm_num) (by norm_num) (by norm_num),
           round1_eval _ 0 _ (by norm_num) (by norm_num) (by norm_num)⟩
  · rw [h2 _ (by norm_num [hasPositivePrice, marketWithPrice])]
    norm_num [marketWithPrice, hasPositivePrice]
    exact ⟨round1_eval _ 1200 _ (by norm_num) (by norm_num) (by norm_num),
           round1_eval _ 200 _ (by norm_num) (by norm_num) (by norm_num)⟩

/-- Witness for C2: the `none` clause applied to the empty market list, and
the priced clause applied to prices 60 and 55 (sum 115, not mispriced). -/
theorem detectArbitrage_witness :
    detectArbitrage [] = none ∧
    detectArbitrage [marketWithPrice 60, marketWithPrice 55] =
      some { totalImpliedPct := 115, overround := 15, marketCount := 2,
             isMispriced := false } := by
  constructor
  · exact detectArbitrage_spec.1 [] (by norm_num)
  · have h := detectArbitrage_spec.2.1 [marketWithPrice 60, marketWithPrice 55]
      (by norm_num [hasPositivePrice, marketWithPrice])
    norm_num [marketWithPrice, hasPositivePrice] at h
    rw [round1_eval 115 1150 115 (by norm_num) (by norm_num) (by norm_num),
        round1_eval 15 150 15 (by norm_num) (by norm_num) (by norm_num)] at h
    exact h

lemma momSumX_succ (n : ℕ) : momSumX (n+1) = momSumX n + n := by
  simp [momSumX, List.range_succ]

lemma momSumX_closed (n : ℕ) : momSumX n = ((n:ℚ)^2 - n)/2 := by
  induction n with
  | zero => simp [momSumX]
  | succ k ih => rw [momSumX_succ, ih]; push_cast; ring

lemma momSumX2_succ (n : ℕ) : momSumX2 (n+1) = momSumX2 n + n * n := by
  simp [momSumX2, List.range_succ]

lemma momSumX2_closed (n : ℕ) : momSumX2 n = (2*(n:ℚ)^3 - 3*(n:ℚ)^2 + n)/6 := by
  induction n with
  | zero => simp [momSumX2]
  | succ k ih => rw [momSumX2_succ, ih]; push_cast; ring

lemma momDenom_closed (n : ℕ) : momDenom n = ((n:ℚ)^4 - (n:ℚ)^2)/12 := by
  rw [momDenom, momSumX_closed, momSumX2_closed]; ring

/-- C9: for every trade list long enough to pass `computeMomentum`'s guard
(length ≥ 4), the regression denominator `n*sumX2 - sumX*sumX` is strictly
positive (it equals `(n⁴ - n²)/12`), so the slope division is by a nonzero
rational and the velocity is a well-defined rational number. -/
theorem momentum_denominator_pos (trades : List Trade) (h : 4 ≤ trades.length) :
    0 < momDenom trades.length := by
  rw [momDenom_closed]
  have hn : (4:ℚ) ≤ (trades.length : ℚ) := by exact_mod_cast h
  have h2 : (16:ℚ) ≤ (trades.length : ℚ)^2 := by nlinarith
  nlinarith

/-- Witness for C9: the denominator is positive on the 6-trade example. -/
theorem momentum_denominator_pos_witness : 0 < momDenom exampleTrades.length :=
  momentum_denominator_pos exampleTrades (by norm_num [exampleTrades])

lemma foldl_min_le_init (l : List ℚ) : ∀ a : ℚ, l.foldl min a ≤ a := by
  induction l with
  | nil => intro a; exact le_refl a
  | cons b t ih => intro a; exact le_trans (ih (min a b)) (min_le_left a b)

lemma foldl_min_le_mem (l : List ℚ) : ∀ a x : ℚ, x ∈ l → l.foldl min a ≤ x := by
  induction l with
  | nil => intro a x hx; exact absurd hx (List.not_mem_nil x)
  | cons b t ih =>
    intro a x hx
    rcases List.mem_cons.mp hx with rfl | hmem
    · exact le_trans (foldl_min_le_init t (min a x)) (min_le_right a x)
    · exact ih (min a b) x hmem

lemma init_le_foldl_max (l : List ℚ) : ∀ a : ℚ, a ≤ l.foldl max a := by
  induction l with
  | nil => intro a; exact le_refl a
  | cons b t ih => intro a; exact le_trans (le_max_left a b) (ih (max a b))

lemma mem_le_foldl_max (l : List ℚ) : ∀ a x : ℚ, x ∈ l → x ≤ l.foldl max a := by
  induction l with
  | nil => intro a x hx; exact absurd hx (List.not_mem_nil x)
  | cons b t ih =>
    intro a x hx
    rcases List.mem_cons.mp hx with rfl | hmem
    · exact le_trans (le_max_right a x) (init_le_foldl_max t (max a x))
    · exact ih (max a b) x hmem

lemma foldl_min_const (l : List ℚ) : ∀ c : ℚ, (∀ y ∈ l, y = c) → l.foldl min c = c := by
  induction l with
  | nil => intro c _; rfl
  | cons b t ih =>
    intro c hc
    have hb : b = c := hc b (List.mem_cons_self b t)
    rw [List.foldl_cons, hb, min_self]
    exact ih c (fun y hy => hc y (List.mem_cons_of_mem b hy))

lemma foldl_max_const (l : List ℚ) : ∀ c : ℚ, (∀ y ∈ l, y = c) → l.foldl max c = c := by
  induction l with
  | nil => intro c _; rfl
  | cons b t ih =>
    intro c hc
    have hb : b = c := hc b (List.mem_cons_self b t)
    rw [List.foldl_cons, hb, max_self]
    exact ih c (fun y hy => hc y (List.mem_cons_of_mem b hy))

/-- C5: every value of `normalizeSeries P` lies in `[0, 100]`; the empty
input yields the empty output; and a non-empty constant input yields only
the value 50. -/
theorem normalizeSeries_spec :
    (∀ (P : List ℚ) (x : ℚ), x ∈ normalizeSeries P → 0 ≤ x ∧ x ≤ 100) ∧
    normalizeSeries ([] : List ℚ) = [] ∧
    (∀ (P : List ℚ) (c : ℚ), P ≠ [] → (∀ y ∈ P, y = c) →
      ∀ z ∈ normalizeSeries P, z = 50) := by
  refine ⟨?_, rfl, ?_⟩
  · intro P x hx
    cases P with
    | nil => simp [normalizeSeries] at hx
    | cons p ps =>
      simp only [normalizeSeries] at hx
      by_cases hr : ps.foldl max p - ps.foldl min p = 0
      · rw [if_pos hr] at hx
        obtain ⟨q, hq, rfl⟩ := List.mem_map.mp hx
        norm_num
      · rw [if_neg hr] at hx
        obtain ⟨q, hq, rfl⟩ := List.mem_map.mp hx
        have h1 : ps.foldl min p ≤ q := by
          rcases List.mem_cons.mp hq with rfl | hqm
          · exact foldl_min_le_init ps q
          · exact foldl_min_le_mem ps p q hqm
        have h2 : q ≤ ps.foldl max p := by
          rcases List.mem_cons.mp hq with rfl | hqm
          · exact init_le_foldl_max ps q
          · exact mem_le_foldl_max ps p q hqm
        have h0 : 0 < ps.foldl max p - ps.foldl min p :=
          lt_of_le_of_ne (by linarith) (Ne.symm hr)
        constructor
        · exact mul_nonneg (div_nonneg (by linarith) (le_of_lt h0)) (by norm_num)
        · have hle : (q - ps.foldl min p)/(ps.foldl max p - ps.foldl min p) ≤ 1 :=
            (div_le_one h0).mpr (by linarith)
          calc (q - ps.foldl min p)/(ps.foldl max p - ps.foldl min p) * 100
              ≤ 1 * 100 := mul_le_mul_of_nonneg_right hle (by norm_num)
            _ = 100 := by norm_num
  · intro P c hne hconst z hz
    cases P with
    | nil => exact absurd rfl hne
    | cons p ps =>
      have hp : p = c := hconst p (List.mem_cons_self p ps)
      have hrest : ∀ y ∈ ps, y = c := fun y hy => hconst y (List.mem_cons_of_mem p hy)
      simp only [normalizeSeries] at hz
      have hmn : ps.foldl min p = p := by rw [hp]; exact foldl_min_const ps c hrest
      have hmx : ps.foldl max p = p := by rw [hp]; exact foldl_max_const ps c hrest
      rw [hmn, hmx, if_pos (sub_self p)] at hz
      obtain ⟨q, hq, rfl⟩ := List.mem_map.mp hz
      rfl

/-- Witness for C5: the range clause applied to the value 100 of
`normalizeSeries [0,5,10] = [0,50,100]`, and the constant clause applied to
`normalizeSeries [3,3,3] = [50,50,50]`. -/
theorem normalizeSeries_spec_witness :
    ((0:ℚ) ≤ 100 ∧ (100:ℚ) ≤ 100) ∧ (50:ℚ) = 50 :=
  ⟨normalizeSeries_spec.1 [0, 5, 10] 100 (by norm_num [normalizeSeries]),
   normalizeSeries_spec.2.2 [3, 3, 3] 3 (by simp) (by simp) 50
     (by norm_num [normalizeSeries])⟩

lemma keywordSimilarity_nonneg (kwA kwB : List String) :
    0 ≤ keywordSimilarity kwA kwB := by
  simp only [keywordSimilarity]
  split
  · exact le_refl 0
  · split
    · exact le_refl 0
    · positivity

lemma dedup_inter_le_union (kwA kwB : List String) :
    (kwA.dedup.filter (fun w => kwB.dedup.contains w)).length ≤
      (kwA ++ kwB).dedup.length := by
  calc (kwA.dedup.filter (fun w => kwB.dedup.contains w)).length
      ≤ kwA.dedup.length := List.length_filter_le _ _
    _ = kwA.toFinset.card := (List.card_toFinset kwA).symm
    _ ≤ (kwA ++ kwB).toFinset.card := by
        rw [List.toFinset_append]
        exact Finset.card_le_card Finset.subset_union_left
    _ = (kwA ++ kwB).dedup.length := List.card_toFinset (kwA ++ kwB)

lemma keywordSimilarity_le_one (kwA kwB : List String) :
    keywordSimilarity kwA kwB ≤ 1 := by
  simp only [keywordSimilarity]
  split
  · norm_num
  · split
    · norm_num
    · rename_i hu
      rw [div_le_one (Nat.cast_pos.mpr (Nat.pos_of_ne_zero hu))]
      exact_mod_cast dedup_inter_le_union _ _

/-- The price-proximity term of `computeRelatedness` is nonnegative whenever
both prices lie in the data model's range `[0, 100]`. -/
lemma priceTerm_nonneg {pT pC : ℚ} (h1 : 0 ≤ pT) (h2 : pT ≤ 100) (h3 : 0 ≤ pC)
    (h4 : pC ≤ 100) : 0 ≤ (1 - |pT - pC| / 100) * (0.1 : ℚ) := by
  have habs : |pT - pC| ≤ 100 := abs_le.mpr ⟨by linarith, by linarith⟩
  have hd : |pT - pC| / 100 ≤ 1 := (div_le_one (by norm_num)).mpr habs
  have : (0:ℚ) ≤ 1 - |pT - pC| / 100 := by linarith
  nlinarith

/-- C6: when the target's `event_ticker` is non-empty and equals the
candidate's, `computeRelatedness` scores at least 0.8 and reports reason
"SAME EVENT", which the topic-similarity branch never overwrites (prices,
per the data model, lie in `[0, 100]` when present). -/
theorem sameEvent_relatedness (target candidate : Market)
    (ht : target.event_ticker ≠ "")
    (he : target.event_ticker = candidate.event_ticker)
    (hp : ∀ p : ℚ, target.last_price = some p → 0 ≤ p ∧ p ≤ 100)
    (hq : ∀ p : ℚ, candidate.last_price = some p → 0 ≤ p ∧ p ≤ 100) :
    (4/5 : ℚ) ≤ (computeRelatedness target candidate).score ∧
    (computeRelatedness target candidate).reason = "SAME EVENT" := by
  have hs : target.event_ticker ≠ "" ∧ target.event_ticker = candidate.event_ticker :=
    ⟨ht, he⟩
  have hkw := keywordSimilarity_nonneg
    (extractKeywords (target.title ++ " " ++ target.event_title))
    (extractKeywords (candidate.title ++ " " ++ candidate.event_title))
  simp only [computeRelatedness]
  rw [if_pos hs, if_pos hs]
  constructor
  · rcases htp : target.last_price with _ | pT <;> rcases hcp : candidate.last_price with _ | pC
    · simp only
      split <;> [nlinarith; norm_num]
    · simp only
      split <;> [nlinarith; norm_num]
    · simp only
      split <;> [nlinarith; norm_num]
    · simp only
      obtain ⟨hp1, hp2⟩ := hp pT htp
      obtain ⟨hq1, hq2⟩ := hq pC hcp
      have hpt := priceTerm_nonneg hp1 hp2 hq1 hq2
      split <;> nlinarith
  · split
    · rw [if_neg (by decide : ¬("SAME EVENT" = ""))]
    · rfl

/-- Witness for C6: two priced markets of the same event "EVT". -/
theorem sameEvent_relatedness_witness :
    (4/5 : ℚ) ≤ (computeRelatedness (marketWithPrice 50) (marketWithPrice 45)).score ∧
    (computeRelatedness (marketWithPrice 50) (marketWithPrice 45)).reason = "SAME EVENT" :=
  sameEvent_relatedness (marketWithPrice 50) (marketWithPrice 45) (by decide) rfl
    (by intro p h; cases h; norm_num) (by intro p h; cases h; norm_num)

/-- C7: for any pair of markets whose `last_price`, when present, lies in
`[0, 100]`, the relatedness score is nonnegative. -/
theorem relatedness_score_nonneg (target candidate : Market)
    (hp : ∀ p : ℚ, target.last_price = some p → 0 ≤ p ∧ p ≤ 100)
    (hq : ∀ p : ℚ, candidate.last_price = some p → 0 ≤ p ∧ p ≤ 100) :
    0 ≤ (computeRelatedness target candidate).score := by
  have hkw := keywordSimilarity_nonneg
    (extractKeywords (target.title ++ " " ++ target.event_title))
    (extractKeywords (candidate.title ++ " " ++ candidate.event_title))
  simp only [computeRelatedness]
  rcases htp : target.last_price with _ | pT <;> rcases hcp : candidate.last_price with _ | pC
  · simp only; split <;> split <;> nlinarith
  · simp only; split <;> split <;> nlinarith
  · simp only; split <;> split <;> nlinarith
  · simp only
    obtain ⟨hp1, hp2⟩ := hp pT htp
    obtain ⟨hq1, hq2⟩ := hq pC hcp
    have hpt := priceTerm_nonneg hp1 hp2 hq1 hq2
    split <;> split <;> nlinarith

/-- An unpriced market of a different event, used as a witness input. -/
def unpricedMarket : Market :=
  { event_ticker := "", title := "Fed rates decision", event_title := "",
    last_price := none }

/-- Witness for C7: score is nonnegative for an unpriced market paired with
a priced one. -/
theorem relatedness_score_nonneg_witness :
    0 ≤ (computeRelatedness unpricedMarket (marketWithPrice 45)).score :=
  relatedness_score_nonneg unpricedMarket (marketWithPrice 45)
    (by intro p h; cases h) (by intro p h; cases h; norm_num)

/-- The sum of squared deviations of a list from its mean — the quantity
accumulated as `denomA`/`denomB` in `pearsonCorrelation`. It is zero exactly
when the series has zero variance. -/
def sqDevSum (l : List ℚ) : ℚ :=
  (l.map (fun v => (v - l.sum / (l.length : ℚ)) * (v - l.sum / (l.length : ℚ)))).sum

lemma sqDevSum_eq_zero_imp (l : List ℚ) (h : sqDevSum l = 0) :
    ∀ x ∈ l, x = l.sum / (l.length : ℚ) := by
  intro x hx
  have hmem : (x - l.sum / (l.length : ℚ)) * (x - l.sum / (l.length : ℚ)) ∈
      l.map (fun v => (v - l.sum / (l.length : ℚ)) * (v - l.sum / (l.length : ℚ))) :=
    List.mem_map_of_mem _ hx
  have hnn : ∀ y ∈ l.map (fun v => (v - l.sum / (l.length : ℚ)) * (v - l.sum / (l.length : ℚ))),
      0 ≤ y := by
    intro y hy
    obtain ⟨v, hv, rfl⟩ := List.mem_map.mp hy
    exact mul_self_nonneg _
  have hle := List.single_le_sum hnn _ hmem
  rw [sqDevSum] at h
  rw [h] at hle
  have hz : (x - l.sum / (l.length : ℚ)) * (x - l.sum / (l.length : ℚ)) = 0 :=
    le_antisymm hle (mul_self_nonneg _)
  have := sub_eq_zero.mp (mul_self_eq_zero.mp hz)
  linarith

lemma sqDevSum_nonneg (l : List ℚ) : 0 ≤ sqDevSum l := by
  rw [sqDevSum]
  apply List.sum_nonneg
  intro z hz
  obtain ⟨v, hv, rfl⟩ := List.mem_map.mp hz
  exact mul_self_nonneg _

lemma sqDevSum_pos (l : List ℚ) (hnc : ∃ x ∈ l, ∃ y ∈ l, x ≠ y) : 0 < sqDevSum l := by
  rcases hnc with ⟨x, hx, y, hy, hxy⟩
  rcases eq_or_lt_of_le (sqDevSum_nonneg l) with heq | hlt
  · exact absurd ((sqDevSum_eq_zero_imp l heq.symm x hx).trans
      (sqDevSum_eq_zero_imp l heq.symm y hy).symm) hxy
  · exact hlt

lemma zip_self_map (l : List ℚ) (m : ℚ) :
    (l.zip l).map (fun p => (p.1 - m) * (p.2 - m)) = l.map (fun v => (v - m) * (v - m)) := by
  induction l with
  | nil => rfl
  | cons a t ih => simp [ih]

/-- C3 (amended): for every non-constant series `A` of length at least 10,
`pearsonCorrelation A A` is exactly 1 (hence within 1e-9 of 1.0). -/
theorem pearson_self_correlation (A : List ℚ) (h10 : 10 ≤ A.length)
    (hnc : ∃ x ∈ A, ∃ y ∈ A, x ≠ y) :
    ∃ r : ℝ, pearsonCorrelation A A = some r ∧ |r - 1| ≤ 1/1000000000 := by
  refine ⟨1, ?_, by norm_num⟩
  have hS : 0 < sqDevSum A := sqDevSum_pos A hnc
  simp only [pearsonCorrelation, Nat.min_self, List.take_length]
  rw [if_neg (not_lt.mpr h10)]
  rw [zip_self_map A (A.sum / (A.length : ℚ))]
  have hfold : (A.map (fun v => (v - A.sum / (A.length : ℚ)) * (v - A.sum / (A.length : ℚ)))).sum
      = sqDevSum A := rfl
  rw [hfold]
  have hsqrt : Real.sqrt ((sqDevSum A : ℝ) * (sqDevSum A : ℝ)) = (sqDevSum A : ℝ) :=
    Real.sqrt_mul_self (by exact_mod_cast hS.le)
  rw [hsqrt]
  have hne : ((sqDevSum A : ℚ) : ℝ) ≠ 0 := by exact_mod_cast hS.ne.symm
  rw [if_neg hne, div_self hne]

/-- C3 (counterexample): `[0,1,2]` is a non-constant series, yet
`pearsonCorrelation [0,1,2] [0,1,2]` is `none` — not 1.0 ± 1e-9 — because
the overlap is shorter than 10. -/
theorem pearson_short_self_counterexample :
    pearsonCorrelation [0, 1, 2] [0, 1, 2] = none ∧
    ¬ ∃ r : ℝ, pearsonCorrelation [0, 1, 2] [0, 1, 2] = some r ∧
        |r - 1| ≤ 1/1000000000 := by
  have h : pearsonCorrelation [0, 1, 2] [0, 1, 2] = none := by
    simp only [pearsonCorrelation]
    rw [if_pos (by norm_num)]
  exact ⟨h, by rintro ⟨r, hr, _⟩; rw [h] at hr; cases hr⟩

/-- The strictly increasing 10-point series `0..9`. -/
def tenSeries : List ℚ := [0, 1, 2, 3, 4, 5, 6, 7, 8, 9]

/-- A constant 10-point series. -/
def constSeries : List ℚ := [5, 5, 5, 5, 5, 5, 5, 5, 5, 5]

/-- Witness for C3 (amended): the self-correlation of `0..9` is 1. -/
theorem pearson_self_correlation_witness :
    ∃ r : ℝ, pearsonCorrelation tenSeries tenSeries = some r ∧
      |r - 1| ≤ 1/1000000000 :=
  pearson_self_correlation tenSeries (by norm_num [tenSeries])
    ⟨0, by norm_num [tenSeries], 1, by norm_num [tenSeries], by norm_num⟩

/-- C4: `pearsonCorrelation` returns `none` whenever the overlap
`min (length A) (length B)` is below 10, whatever the contents; and with
overlap at least 10 it returns exactly `some 0` whenever either aligned
series has zero variance (zero squared-deviation sum). -/
theorem pearson_guard_and_zero_variance :
    (∀ A B : List ℚ, min A.length B.length < 10 → pearsonCorrelation A B = none) ∧
    (∀ A B : List ℚ, 10 ≤ min A.length B.length →
      (sqDevSum (A.take (min A.length B.length)) = 0 ∨
       sqDevSum (B.take (min A.length B.length)) = 0) →
      pearsonCorrelation A B = some 0) := by
  constructor
  · intro A B h
    simp only [pearsonCorrelation]
    rw [if_pos h]
  · intro A B h10 hvar
    have ha : (A.take (min A.length B.length)).length = min A.length B.length := by
      rw [List.length_take]
      exact Nat.min_eq_left (Nat.min_le_left _ _)
    have hb : (B.take (min A.length B.length)).length = min A.length B.length := by
      rw [List.length_take]
      exact Nat.min_eq_left (Nat.min_le_right _ _)
    have hda : sqDevSum (A.take (min A.length B.length)) =
        ((A.take (min A.length B.length)).map
          (fun v => (v - (A.take (min A.length B.length)).sum / ((min A.length B.length : ℕ) : ℚ)) *
                    (v - (A.take (min A.length B.length)).sum / ((min A.length B.length : ℕ) : ℚ)))).sum := by
      rw [sqDevSum, ha]
    have hdb : sqDevSum (B.take (min A.length B.length)) =
        ((B.take (min A.length B.length)).map
          (fun v => (v - (B.take (min A.length B.length)).sum / ((min A.length B.length : ℕ) : ℚ)) *
                    (v - (B.take (min A.length B.length)).sum / ((min A.length B.length : ℕ) : ℚ)))).sum := by
      rw [sqDevSum, hb]
    simp only [pearsonCorrelation]
    rw [if_neg (not_lt.mpr h10)]
    rcases hvar with h0 | h0
    · rw [hda] at h0
      rw [h0]
      simp [Real.sqrt_zero]
    · rw [hdb] at h0
      rw [h0]
      simp [Real.sqrt_zero]

/-- Witness for C4: a 3-point overlap yields `none`; a zero-variance
constant series against `0..9` yields exactly `some 0`. -/
theorem pearson_guard_witness :
    pearsonCorrelation [1, 2, 3] [4, 5, 6] = none ∧
    pearsonCorrelation constSeries tenSeries = some 0 := by
  constructor
  · exact pearson_guard_and_zero_variance.1 [1, 2, 3] [4, 5, 6] (by norm_num)
  · refine pearson_guard_and_zero_variance.2 constSeries tenSeries
      (by norm_num [constSeries, tenSeries]) (Or.inl ?_)
    have htake : constSeries.take (min constSeries.length tenSeries.length) = constSeries := rfl
    rw [htake]
    norm_num [sqDevSum, constSeries]

end KalshiStats
